import Mathlib

/-!
Shallow embedding of the concurrent fan-out fetch dispatcher of this Go
repository (exercises 03-goroutines-channels and 04-context-cancellation,
together with the service files `UrlResponseFetcher.Fetch` and
`ResponseFetcherImpl.FetchWithContextCancel` / `FetchWithTimeOut`).

Modelling conventions:
- Durations are natural numbers of milliseconds.  A call of Go's
  `rand.Intn` is modelled by an explicit parameter carrying the sampled
  value, so the theorems quantify over every possible draw.
- A Go `context.Context` is modelled by the observations a worker can make
  of it: the instant (relative to the worker's start) at which its done
  channel closes, if it ever does, and the error `ctx.Err()` reports once
  it has fired (`context.Canceled` or `context.DeadlineExceeded`).
- A worker function returns the pair of its Go return value and the list
  of messages it sends on the result channel, in order; channel semantics
  for the collectors is that `n` unbuffered sends meet `n` blocking
  receives, the arrival order being an arbitrary permutation of the
  senders, which we quantify over.
- The nondeterministic choice Go's `select` makes when both cases are
  ready simultaneously is modelled by an explicit tie-break parameter.
-/

namespace GoPoc

/-- The two reasons `ctx.Err()` can report in this code base:
`context.Canceled` (after an explicit `cancel()`) or
`context.DeadlineExceeded` (a `context.WithTimeout` deadline elapsed). -/
inductive GoErr where
  | canceled
  | deadlineExceeded
deriving DecidableEq, Repr

/-- The struct `model.Result` shared by exercises 03 and 04:
`URL string; StatusCode int; Duration time.Duration; Error error`.
`error = none` models a nil Go error. -/
structure Result where
  url : String
  statusCode : Nat
  duration : Nat
  error : Option GoErr
deriving DecidableEq, Repr

/-- A `context.Context` as observed by one worker: `doneAt = some t` means
the done channel closes `t` milliseconds after the worker starts its
select, `none` means it never closes; `reason` is what `ctx.Err()` returns
once fired. -/
structure Ctx where
  doneAt : Option Nat
  reason : GoErr
deriving DecidableEq, Repr

/-- Exercise-03 `model.FetchURL(url, ch)`: sleeps the sampled delay, builds
`Result{url, 200, delay, nil}`, sends it on `ch`, and returns it.  The
first component is the Go return value, the second the list of channel
sends the call performs. -/
def fetchURL03 (url : String) (delay : Nat) : Result × List Result :=
  let result : Result := ⟨url, 200, delay, none⟩
  (result, [result])

/-- Exercise-04 `model.FetchURL(ctx, url, ch)`: a `select` racing
`time.After(opDelay)` against `ctx.Done()`.  If the operation fires first
it sends `Result{url, 200, elapsed, nil}`; if the context fires first it
sends `Result{url, 500, elapsed, ctx.Err()}`.  Either branch sends exactly
once and returns what it sent.  `tieOp` resolves the race when both events
are ready at the same instant. -/
def fetchURL04 (ctx : Ctx) (url : String) (opDelay : Nat) (tieOp : Bool) :
    Result × List Result :=
  match ctx.doneAt with
  | none =>
      let result : Result := ⟨url, 200, opDelay, none⟩
      (result, [result])
  | some t =>
      if opDelay < t ∨ (opDelay = t ∧ tieOp = true) then
        let result : Result := ⟨url, 200, opDelay, none⟩
        (result, [result])
      else
        let res : Result := ⟨url, 500, t, some ctx.reason⟩
        (res, [res])

/-- The Go return value of the exercise-03 worker for one url/delay pair;
by `fetchURL03` this is also the unique message it sends. -/
def taskResult03 (url : String) (delay : Nat) : Result :=
  (fetchURL03 url delay).1

/-- C1.  In both variants of the worker, and in both branches of the
exercise-04 race, `FetchURL` sends exactly one `Result` on the channel
before returning — never zero, never two — and the message sent is the
value returned. -/
theorem fetchURL_sends_exactly_once (ctx : Ctx) (url : String)
    (delay opDelay : Nat) (tieOp : Bool) :
    (fetchURL03 url delay).2 = [(fetchURL03 url delay).1] ∧
    (fetchURL03 url delay).2.length = 1 ∧
    (fetchURL04 ctx url opDelay tieOp).2 =
      [(fetchURL04 ctx url opDelay tieOp).1] ∧
    (fetchURL04 ctx url opDelay tieOp).2.length = 1 := by
  refine ⟨rfl, rfl, ?_, ?_⟩ <;>
    · unfold fetchURL04
      rcases ctx.doneAt with _ | t
      · rfl
      · dsimp only
        split <;> rfl

/-- The sends performed on the shared channel by the `len(urls)` workers
launched by `UrlResponseFetcher.Fetch`, one per work item, in launch
order: worker `i` sends exactly `taskResult03 (urls i) (delays i)`. -/
def sends (n : Nat) (urls : Fin n → String) (delays : Fin n → Nat) :
    List Result :=
  (List.finRange n).map (fun i => taskResult03 (urls i) (delays i))

/-- The slice-returning `UrlResponseFetcher.Fetch(urls) []model.Result`:
it launches one `go model.FetchURL(urls[index], ch)` per item, then loops
`len(urls)` times executing `results[index] = <-ch`.  The arrival order of
the `n` unbuffered sends is an arbitrary permutation `σ`: the `k`-th
receive delivers the message of worker `σ k`, and it is stored at slice
position `k`. -/
def fetch (n : Nat) (urls : Fin n → String) (delays : Fin n → Nat)
    (σ : Equiv.Perm (Fin n)) : List Result :=
  (List.finRange n).map (fun k => taskResult03 (urls (σ k)) (delays (σ k)))

/-- C2.  Drain-all completeness of `UrlResponseFetcher.Fetch`: for every
non-empty batch with distinct URLs and every completion order, the
returned slice has exactly `len(urls)` Results, its originating URLs are a
permutation of the input URLs, and they are pairwise distinct — a
bijection onto the input identifiers. -/
theorem fetch_drainAll_complete (n : Nat) (hn : 0 < n)
    (urls : Fin n → String) (delays : Fin n → Nat) (σ : Equiv.Perm (Fin n))
    (hinj : Function.Injective urls) :
    (fetch n urls delays σ).length = n ∧
    ((fetch n urls delays σ).map Result.url).Perm
      ((List.finRange n).map urls) ∧
    ((fetch n urls delays σ).map Result.url).Nodup := by
  have hmap : (fetch n urls delays σ).map Result.url =
      (List.finRange n).map (fun k => urls (σ k)) := by
    simp [fetch, taskResult03, fetchURL03]
  refine ⟨by simp [fetch], ?_, ?_⟩
  · rw [hmap]
    have h1 : (List.finRange n).map (fun k => urls (σ k)) =
        ((List.finRange n).map σ).map urls := by
      simp [List.map_map, Function.comp]
    rw [h1]
    exact (Equiv.Perm.map_finRange_perm σ).map urls
  · rw [hmap]
    exact (List.nodup_finRange n).map
      (fun a b hab => (Equiv.injective σ) (hinj hab))

/-- C2 witness: a concrete two-item batch with distinct URLs and a
swapped completion order satisfies the drain-all completeness theorem. -/
theorem fetch_drainAll_complete_witness :
    (fetch 2 !["u0", "u1"] ![10, 20] (Equiv.swap 0 1)).length = 2 ∧
    ((fetch 2 !["u0", "u1"] ![10, 20] (Equiv.swap 0 1)).map
        Result.url).Perm ((List.finRange 2).map !["u0", "u1"]) ∧
    ((fetch 2 !["u0", "u1"] ![10, 20] (Equiv.swap 0 1)).map
        Result.url).Nodup :=
  fetch_drainAll_complete 2 (by decide) !["u0", "u1"] ![10, 20]
    (Equiv.swap 0 1) (by decide)

/-- The map-returning `UrlResponseFetcher.Fetch(urls)` of exercise 03's
other service version: the receive loop executes `res := <-ch` followed by
`results[res.URL] = res`.  The Go map is modelled as an association list
with the newest insertion in front, so an earlier entry with the same key
is shadowed, exactly like a Go map overwrite. -/
def fetchMap (n : Nat) (urls : Fin n → String) (delays : Fin n → Nat)
    (σ : Equiv.Perm (Fin n)) : List (String × Result) :=
  (List.finRange n).foldl
    (fun m k =>
      let res := taskResult03 (urls (σ k)) (delays (σ k))
      (res.url, res) :: m)
    []

/-- Folding cons over a list builds the reversed image list on top of the
accumulator. -/
theorem foldl_cons_eq_reverse_map {α β : Type} (L : List α) (f : α → β)
    (init : List β) :
    L.foldl (fun m k => f k :: m) init = (L.map f).reverse ++ init := by
  induction L generalizing init with
  | nil => rfl
  | cons a L ih => simp [ih, List.reverse_cons]

/-- C3 counterexample: with input URLs `["u0", "u1"]` and the completion
order that swaps the two workers, the slice-returning collector stores at
position 0 a Result whose identifier is `"u1"`, not the 0-th input's
identifier `"u0"`; receive order, not the carried identifier, decides the
position. -/
theorem fetch_position_not_reassociated :
    ((fetch 2 !["u0", "u1"] ![10, 20] (Equiv.swap 0 1)).map Result.url =
      ["u1", "u0"]) ∧
    ((fetch 2 !["u0", "u1"] ![10, 20] (Equiv.swap 0 1)).map Result.url ≠
      (List.finRange 2).map !["u0", "u1"]) := by
  constructor
  · rfl
  · decide

/-- C3 amended.  The map-returning collector does re-associate via the
identifier carried in the Result: whenever the input URLs are distinct,
every entry the map holds under the key `urls i` is exactly worker `i`'s
Result, and such an entry is present, for every completion order.  (The
slice-returning collector instead stores Results in receive order, as the
counterexample shows.) -/
theorem fetchMap_reassociates_by_identifier (n : Nat)
    (urls : Fin n → String) (delays : Fin n → Nat) (σ : Equiv.Perm (Fin n))
    (hinj : Function.Injective urls) (i : Fin n) :
    (∀ p ∈ fetchMap n urls delays σ,
        p.1 = urls i → p.2 = taskResult03 (urls i) (delays i)) ∧
    (urls i, taskResult03 (urls i) (delays i)) ∈ fetchMap n urls delays σ := by
  have hrepr : fetchMap n urls delays σ =
      ((List.finRange n).map (fun k =>
        (urls (σ k), taskResult03 (urls (σ k)) (delays (σ k))))).reverse := by
    rw [fetchMap, foldl_cons_eq_reverse_map]
    simp [taskResult03, fetchURL03]
  constructor
  · intro p hp hkey
    rw [hrepr, List.mem_reverse, List.mem_map] at hp
    obtain ⟨k, _, hk⟩ := hp
    have hurl : urls (σ k) = urls i := by rw [← hkey, ← hk]
    have hki : σ k = i := hinj hurl
    rw [← hk, hki]
  · rw [hrepr, List.mem_reverse, List.mem_map]
    refine ⟨σ.symm i, List.mem_finRange _, ?_⟩
    rw [Equiv.apply_symm_apply]

/-- C3 amended witness: on the concrete two-item batch with swapped
completion order, the map entry stored under the key `"u0"` is worker 0's
Result and is present in the map. -/
theorem fetchMap_reassociates_by_identifier_witness :
    (∀ p ∈ fetchMap 2 !["u0", "u1"] ![10, 20] (Equiv.swap 0 1),
        p.1 = (!["u0", "u1"] : Fin 2 → String) 0 →
          p.2 = taskResult03 ((!["u0", "u1"] : Fin 2 → String) 0)
            ((![10, 20] : Fin 2 → Nat) 0)) ∧
    ((!["u0", "u1"] : Fin 2 → String) 0,
        taskResult03 ((!["u0", "u1"] : Fin 2 → String) 0)
          ((![10, 20] : Fin 2 → Nat) 0)) ∈
      fetchMap 2 !["u0", "u1"] ![10, 20] (Equiv.swap 0 1) :=
  fetchMap_reassociates_by_identifier 2 !["u0", "u1"] ![10, 20]
    (Equiv.swap 0 1) (by decide) 0

/-- A context created by `context.WithTimeout(Background(), timeOut ms)`:
relative to the worker that receives it, the done channel closes once the
timeout elapses and `ctx.Err()` then reports `context.DeadlineExceeded`. -/
def withTimeoutCtx (timeOut : Nat) : Ctx :=
  ⟨some timeOut, GoErr.deadlineExceeded⟩

/-- One `context` creation performed by a dispatcher, together with
whether the dispatcher ever invokes the associated cancel function. -/
structure CtxCreation where
  ctx : Ctx
  cancelCalled : Bool
deriving DecidableEq, Repr

/-- The context creations of `ResponseFetcherImpl.FetchWithTimeOut`: its
launch loop runs `ctx, _ = context.WithTimeout(ctx, timeOut ms)` once per
URL, so one fresh timeout context is created per work item, and the
returned cancel function is discarded into `_`, hence never invoked on any
path. -/
def fetchWithTimeOutCreations (urls : List String) (timeOut : Nat) :
    List CtxCreation :=
  urls.map (fun _ => ⟨withTimeoutCtx timeOut, false⟩)

/-- The context creations of
`ResponseFetcherImpl.FetchWithContextCancel`: its loop runs
`ctx, cancel := context.WithCancel(...)` once per URL, sleeps the sampled
delay, and then calls `cancel()`, so item `i`'s context fires as cancelled
`cancelDelays i` milliseconds after its worker starts, and every cancel
function is invoked. -/
def fetchWithContextCancelCreations (n : Nat)
    (cancelDelays : Fin n → Nat) : List CtxCreation :=
  (List.finRange n).map
    (fun i => ⟨⟨some (cancelDelays i), GoErr.canceled⟩, true⟩)

/-- C4 counterexample: dispatching a two-item batch through
`FetchWithTimeOut` creates two cancellation contexts, not the single
shared one the claim asserts. -/
theorem fetchWithTimeOut_not_single_context :
    (fetchWithTimeOutCreations ["u0", "u1"] 50).length = 2 ∧
    (fetchWithTimeOutCreations ["u0", "u1"] 50).length ≠ 1 := by
  decide

/-- C4 amended.  `FetchWithTimeOut` creates one cancellation context per
work item — `len(urls)` creations in total, each equipped with its own
deadline of the same duration `timeOut` relative to its creation — and
worker `i` is handed the `i`-th creation; no single context is shared by
the whole batch (the creation count equals the batch size, so it exceeds
one as soon as the batch does). -/
theorem fetchWithTimeOut_context_per_item (urls : List String)
    (timeOut : Nat) :
    (fetchWithTimeOutCreations urls timeOut).length = urls.length ∧
    (∀ c ∈ fetchWithTimeOutCreations urls timeOut,
        c.ctx = withTimeoutCtx timeOut) := by
  refine ⟨by simp [fetchWithTimeOutCreations], ?_⟩
  intro c hc
  rw [fetchWithTimeOutCreations, List.mem_map] at hc
  obtain ⟨u, _, hu⟩ := hc
  rw [← hu]

/-- C4 amended witness: on the concrete two-item batch, the creation count
is the batch size and the first creation carries the 50 ms timeout
context. -/
theorem fetchWithTimeOut_context_per_item_witness :
    (fetchWithTimeOutCreations ["u0", "u1"] 50).length =
      (["u0", "u1"] : List String).length ∧
    (∀ c ∈ fetchWithTimeOutCreations ["u0", "u1"] 50,
        c.ctx = withTimeoutCtx 50) :=
  fetchWithTimeOut_context_per_item ["u0", "u1"] 50

/-- C5.  `FetchWithTimeOut` discards the cancel function returned by
`context.WithTimeout` (`ctx, _ = ...`), so for every context it creates
the release operation is never invoked on any path: at the concrete input
`urls = ["u0"], timeOut = 50` the single context's cancel is not called,
while the per-item-cancel variant does call every cancel. -/
theorem fetchWithTimeOut_cancel_never_called :
    (fetchWithTimeOutCreations ["u0"] 50).map CtxCreation.cancelCalled =
      [false] ∧
    (fetchWithContextCancelCreations 1 ![30]).map
        CtxCreation.cancelCalled = [true] := by
  decide

/-- The Result worker `i` produces under `FetchWithTimeOut`: it races its
operation of duration `opDelay` against its own timeout context
`withTimeoutCtx timeOut`. -/
def fetchWithTimeOutResult (timeOut : Nat) (url : String) (opDelay : Nat)
    (tieOp : Bool) : Result :=
  (fetchURL04 (withTimeoutCtx timeOut) url opDelay tieOp).1

/-- C6.  Deadline discrimination for a worker run under
`FetchWithTimeOut`: if the deadline is shorter than the simulated
duration, the Result is the timed-out one — status 500 with the
deadline-exceeded reason, not a Success; if the deadline exceeds the
simulated duration, the Result is the Success `{url, 200, opDelay, nil}`. -/
theorem fetchWithTimeOut_deadline_discrimination (timeOut : Nat)
    (url : String) (opDelay : Nat) (tieOp : Bool) :
    (timeOut < opDelay →
      fetchWithTimeOutResult timeOut url opDelay tieOp =
        ⟨url, 500, timeOut, some GoErr.deadlineExceeded⟩) ∧
    (opDelay < timeOut →
      fetchWithTimeOutResult timeOut url opDelay tieOp =
        ⟨url, 200, opDelay, none⟩) := by
  constructor
  · intro h
    rw [fetchWithTimeOutResult, fetchURL04]
    have hcond : ¬(opDelay < timeOut ∨ (opDelay = timeOut ∧ tieOp = true)) := by
      rintro (h1 | ⟨h2, _⟩)
      · exact absurd h (Nat.lt_asymm h1)
      · exact absurd h (by rw [h2] at *; exact Nat.lt_irrefl timeOut)
    simp only [withTimeoutCtx]
    rw [if_neg hcond]
  · intro h
    rw [fetchWithTimeOutResult, fetchURL04]
    simp only [withTimeoutCtx]
    rw [if_pos (Or.inl h)]

/-- C6 witness: with a 10 ms deadline against a 100 ms operation the
worker reports the deadline-exceeded Result, and with a 100 ms deadline
against a 10 ms operation it reports the Success Result. -/
theorem fetchWithTimeOut_deadline_discrimination_witness :
    fetchWithTimeOutResult 10 "u0" 100 true =
      ⟨"u0", 500, 10, some GoErr.deadlineExceeded⟩ ∧
    fetchWithTimeOutResult 100 "u0" 10 true = ⟨"u0", 200, 10, none⟩ :=
  ⟨(fetchWithTimeOut_deadline_discrimination 10 "u0" 100 true).1
      (by decide),
    (fetchWithTimeOut_deadline_discrimination 100 "u0" 10 true).2
      (by decide)⟩

/-- C7.  Shape of every exercise-04 Result: it carries the originating
URL and an elapsed-duration measurement; the Success payload (status 200)
is present exactly when the error is absent; when the error is present the
payload is absent (status 500), the error is exactly the reason the
context fired, and the recorded duration is the instant the context
fired.  When the error is absent the duration is the operation's own
elapsed time. -/
theorem fetchURL04_result_shape (ctx : Ctx) (url : String) (opDelay : Nat)
    (tieOp : Bool) :
    (fetchURL04 ctx url opDelay tieOp).1.url = url ∧
    ((fetchURL04 ctx url opDelay tieOp).1.error = none ↔
      (fetchURL04 ctx url opDelay tieOp).1.statusCode = 200) ∧
    ((fetchURL04 ctx url opDelay tieOp).1.error = none →
      (fetchURL04 ctx url opDelay tieOp).1.duration = opDelay) ∧
    (∀ e, (fetchURL04 ctx url opDelay tieOp).1.error = some e →
      e = ctx.reason ∧
      (fetchURL04 ctx url opDelay tieOp).1.statusCode = 500 ∧
      ctx.doneAt = some (fetchURL04 ctx url opDelay tieOp).1.duration) := by
  obtain ⟨d, reason⟩ := ctx
  rcases d with _ | t
  · exact ⟨rfl, by simp [fetchURL04], fun _ => rfl,
      fun e he => by simp [fetchURL04] at he⟩
  · by_cases hcond : opDelay < t ∨ (opDelay = t ∧ tieOp = true)
    · have hres : fetchURL04 ⟨some t, reason⟩ url opDelay tieOp =
          (⟨url, 200, opDelay, none⟩, [⟨url, 200, opDelay, none⟩]) := by
        simp only [fetchURL04]
        rw [if_pos hcond]
      rw [hres]
      exact ⟨rfl, by simp, fun _ => rfl, fun e he => by simp at he⟩
    · have hres : fetchURL04 ⟨some t, reason⟩ url opDelay tieOp =
          (⟨url, 500, t, some reason⟩, [⟨url, 500, t, some reason⟩]) := by
        simp only [fetchURL04]
        rw [if_neg hcond]
      rw [hres]
      refine ⟨rfl, by simp, by simp, ?_⟩
      intro e he
      have he2 : reason = e := by simpa using he
      exact ⟨he2.symm, rfl, rfl⟩

/-- C7 witness: on a concrete run whose context fires first (cancel after
10 ms against a 100 ms operation), the shape properties hold: the error is
present, equals the context's cancel reason, the payload is absent and the
duration records the firing instant. -/
theorem fetchURL04_result_shape_witness :
    (fetchURL04 ⟨some 10, GoErr.canceled⟩ "u0" 100 true).1.url = "u0" ∧
    ((fetchURL04 ⟨some 10, GoErr.canceled⟩ "u0" 100 true).1.error = none ↔
      (fetchURL04 ⟨some 10, GoErr.canceled⟩ "u0" 100
          true).1.statusCode = 200) ∧
    ((fetchURL04 ⟨some 10, GoErr.canceled⟩ "u0" 100 true).1.error = none →
      (fetchURL04 ⟨some 10, GoErr.canceled⟩ "u0" 100
          true).1.duration = 100) ∧
    (∀ e, (fetchURL04 ⟨some 10, GoErr.canceled⟩ "u0" 100
        true).1.error = some e →
      e = (⟨some 10, GoErr.canceled⟩ : Ctx).reason ∧
      (fetchURL04 ⟨some 10, GoErr.canceled⟩ "u0" 100
          true).1.statusCode = 500 ∧
      (⟨some 10, GoErr.canceled⟩ : Ctx).doneAt =
        some (fetchURL04 ⟨some 10, GoErr.canceled⟩ "u0" 100
          true).1.duration) :=
  fetchURL04_result_shape ⟨some 10, GoErr.canceled⟩ "u0" 100 true

/-- The per-item Results of `FetchWithContextCancel`: worker `i` races its
operation of duration `opDelays i` against its private cancel context,
which fires `cancelDelays i` milliseconds after the worker starts (the
dispatcher sleeps that sampled delay and then calls `cancel()`). -/
def fetchWithContextCancelResults (n : Nat) (urls : Fin n → String)
    (opDelays cancelDelays : Fin n → Nat) (tieOp : Fin n → Bool) :
    Fin n → Result :=
  fun i =>
    (fetchURL04 ⟨some (cancelDelays i), GoErr.canceled⟩ (urls i)
      (opDelays i) (tieOp i)).1

/-- C8.  Per-item cancellation isolation in `FetchWithContextCancel`: two
runs whose cancellation schedules agree at item `j` give item `j` the same
Result, however the schedules differ at every other item — cancelling (or
re-timing the cancellation of) one item's context cannot change any other
item's outcome. -/
theorem fetchWithContextCancel_isolation (n : Nat)
    (urls : Fin n → String) (opDelays : Fin n → Nat)
    (cancelDelays₁ cancelDelays₂ : Fin n → Nat) (tieOp : Fin n → Bool)
    (j : Fin n) (hj : cancelDelays₁ j = cancelDelays₂ j) :
    fetchWithContextCancelResults n urls opDelays cancelDelays₁ tieOp j =
      fetchWithContextCancelResults n urls opDelays cancelDelays₂ tieOp j := by
  rw [fetchWithContextCancelResults, fetchWithContextCancelResults, hj]

/-- C8 witness: with two items, cancelling item 0 at 5 ms in one run and
at 150 ms in the other while item 1's schedule is unchanged, item 1's
Result is identical in both runs. -/
theorem fetchWithContextCancel_isolation_witness :
    fetchWithContextCancelResults 2 !["u0", "u1"] ![100, 20] ![5, 60]
        ![true, true] 1 =
      fetchWithContextCancelResults 2 !["u0", "u1"] ![100, 20] ![150, 60]
        ![true, true] 1 :=
  fetchWithContextCancel_isolation 2 !["u0", "u1"] ![100, 20] ![5, 60]
    ![150, 60] ![true, true] 1 (by decide)

/-- C9.  Zero work items: the launch loops of both collectors run zero
times (no worker task sends anything, no timeout context is created), the
receive loop runs zero times, and `Fetch` returns the empty slice
immediately. -/
theorem fetch_empty_batch (urls : Fin 0 → String) (delays : Fin 0 → Nat)
    (σ : Equiv.Perm (Fin 0)) (timeOut : Nat) :
    sends 0 urls delays = [] ∧
    fetch 0 urls delays σ = [] ∧
    fetchWithTimeOutCreations [] timeOut = [] := by
  refine ⟨?_, ?_, rfl⟩ <;> rfl

/-- C10.  In the basic exercise-03 variant every collected Result is a
Success: `fetchURL03` always returns and sends `{url, 200, delay, nil}`,
so each Result of `Fetch` has status 200, a nil error, and a duration
equal to the simulated delay of the worker it originates from — the
Cancelled, TimedOut and Failed outcomes are unreachable. -/
theorem basicVariant_always_success (n : Nat) (urls : Fin n → String)
    (delays : Fin n → Nat) (σ : Equiv.Perm (Fin n)) :
    (∀ url delay, fetchURL03 url delay =
      (⟨url, 200, delay, none⟩, [⟨url, 200, delay, none⟩])) ∧
    (∀ r ∈ fetch n urls delays σ,
      r.statusCode = 200 ∧ r.error = none ∧
      ∃ i : Fin n, r.url = urls i ∧ r.duration = delays i) := by
  refine ⟨fun url delay => rfl, ?_⟩
  intro r hr
  rw [fetch, List.mem_map] at hr
  obtain ⟨k, _, hk⟩ := hr
  refine ⟨?_, ?_, σ k, ?_, ?_⟩ <;>
    simp [← hk, taskResult03, fetchURL03]

/-- C10 witness: the Result `{u1, 200, 20, nil}` collected first under the
swapped completion order of a concrete two-item batch is a Success whose
duration is its worker's simulated delay. -/
theorem basicVariant_always_success_witness :
    (⟨"u1", 200, 20, none⟩ : Result).statusCode = 200 ∧
    (⟨"u1", 200, 20, none⟩ : Result).error = none ∧
    ∃ i : Fin 2, (⟨"u1", 200, 20, none⟩ : Result).url =
        (!["u0", "u1"] : Fin 2 → String) i ∧
      (⟨"u1", 200, 20, none⟩ : Result).duration =
        (![10, 20] : Fin 2 → Nat) i :=
  (basicVariant_always_success 2 !["u0", "u1"] ![10, 20]
      (Equiv.swap 0 1)).2 ⟨"u1", 200, 20, none⟩ (by decide)

end GoPoc
